import Mathlib

/-!
Verification of the `jade-dev-assist` task dashboard (`src/bin/dashboard.py`).

The dashboard is a read-only refresh loop: it loads a registry of projects
(JSON), loads each project's task list (JSON), aggregates per-status counts,
and renders a table plus "in progress" / "recently completed" panels.

Shallow embedding conventions:
* Parsed JSON documents are `JValue`; Python's dynamic-typing failures
  (`AttributeError`, `KeyError`, `TypeError` on unhashable keys,
  rich's `NotRenderableError`) are modelled with `Except PyErr`.
* File reads are abstracted by a `ReadResult` (missing file /
  undecodable JSON / successfully parsed value); the two `except` clauses
  in the Python code catch exactly the first two outcomes.
* Python floats in `make_progress_bar` are modelled as exact rationals;
  `int(pct * width)` becomes natural-number floor division and the
  `{pct:>4.0%}` percent formatting becomes nearest-integer rounding.
* The wall-clock footer line and terminal styling engine are external to
  the aggregation pipeline and are not modelled.
-/

namespace Dashboard

/-- A parsed JSON document, as returned by `json.loads`.  JSON numbers are
modelled as integers (the dashboard's data model uses no fractional
numbers). -/
inductive JValue where
  | null : JValue
  | bool : Bool → JValue
  | num : Int → JValue
  | str : String → JValue
  | arr : List JValue → JValue
  | obj : List (String × JValue) → JValue

mutual

/-- Decidable equality on JSON values (Python `==` on parsed JSON data). -/
def JValue.decEq : (a b : JValue) → Decidable (a = b)
  | .null, .null => isTrue rfl
  | .bool a, .bool b =>
      if h : a = b then isTrue (by rw [h]) else isFalse (by simp [h])
  | .num a, .num b =>
      if h : a = b then isTrue (by rw [h]) else isFalse (by simp [h])
  | .str a, .str b =>
      if h : a = b then isTrue (by rw [h]) else isFalse (by simp [h])
  | .arr a, .arr b =>
      match JValue.decEqArr a b with
      | isTrue h => isTrue (by rw [h])
      | isFalse h => isFalse (by simp [h])
  | .obj a, .obj b =>
      match JValue.decEqObj a b with
      | isTrue h => isTrue (by rw [h])
      | isFalse h => isFalse (by simp [h])
  | .null, .bool _ => isFalse (fun h => JValue.noConfusion h)
  | .null, .num _ => isFalse (fun h => JValue.noConfusion h)
  | .null, .str _ => isFalse (fun h => JValue.noConfusion h)
  | .null, .arr _ => isFalse (fun h => JValue.noConfusion h)
  | .null, .obj _ => isFalse (fun h => JValue.noConfusion h)
  | .bool _, .null => isFalse (fun h => JValue.noConfusion h)
  | .bool _, .num _ => isFalse (fun h => JValue.noConfusion h)
  | .bool _, .str _ => isFalse (fun h => JValue.noConfusion h)
  | .bool _, .arr _ => isFalse (fun h => JValue.noConfusion h)
  | .bool _, .obj _ => isFalse (fun h => JValue.noConfusion h)
  | .num _, .null => isFalse (fun h => JValue.noConfusion h)
  | .num _, .bool _ => isFalse (fun h => JValue.noConfusion h)
  | .num _, .str _ => isFalse (fun h => JValue.noConfusion h)
  | .num _, .arr _ => isFalse (fun h => JValue.noConfusion h)
  | .num _, .obj _ => isFalse (fun h => JValue.noConfusion h)
  | .str _, .null => isFalse (fun h => JValue.noConfusion h)
  | .str _, .bool _ => isFalse (fun h => JValue.noConfusion h)
  | .str _, .num _ => isFalse (fun h => JValue.noConfusion h)
  | .str _, .arr _ => isFalse (fun h => JValue.noConfusion h)
  | .str _, .obj _ => isFalse (fun h => JValue.noConfusion h)
  | .arr _, .null => isFalse (fun h => JValue.noConfusion h)
  | .arr _, .bool _ => isFalse (fun h => JValue.noConfusion h)
  | .arr _, .num _ => isFalse (fun h => JValue.noConfusion h)
  | .arr _, .str _ => isFalse (fun h => JValue.noConfusion h)
  | .arr _, .obj _ => isFalse (fun h => JValue.noConfusion h)
  | .obj _, .null => isFalse (fun h => JValue.noConfusion h)
  | .obj _, .bool _ => isFalse (fun h => JValue.noConfusion h)
  | .obj _, .num _ => isFalse (fun h => JValue.noConfusion h)
  | .obj _, .str _ => isFalse (fun h => JValue.noConfusion h)
  | .obj _, .arr _ => isFalse (fun h => JValue.noConfusion h)

/-- Decidable equality on JSON arrays. -/
def JValue.decEqArr : (a b : List JValue) → Decidable (a = b)
  | [], [] => isTrue rfl
  | [], _ :: _ => isFalse (fun h => List.noConfusion h)
  | _ :: _, [] => isFalse (fun h => List.noConfusion h)
  | x :: xs, y :: ys =>
      match JValue.decEq x y, JValue.decEqArr xs ys with
      | isTrue h1, isTrue h2 => isTrue (by rw [h1, h2])
      | isFalse h1, _ => isFalse (by simp [h1])
      | _, isFalse h2 => isFalse (by simp [h2])

/-- Decidable equality on JSON object field lists. -/
def JValue.decEqObj : (a b : List (String × JValue)) → Decidable (a = b)
  | [], [] => isTrue rfl
  | [], _ :: _ => isFalse (fun h => List.noConfusion h)
  | _ :: _, [] => isFalse (fun h => List.noConfusion h)
  | (k1, v1) :: xs, (k2, v2) :: ys =>
      if hk : k1 = k2 then
        match JValue.decEq v1 v2, JValue.decEqObj xs ys with
        | isTrue h1, isTrue h2 => isTrue (by rw [hk, h1, h2])
        | isFalse h1, _ => isFalse (by simp [h1])
        | _, isFalse h2 => isFalse (by simp [h2])
      else isFalse (by simp [hk])

end

instance : DecidableEq JValue := JValue.decEq

/-- Outcome of trying to read and `json.loads` a file: the file is absent
(`FileNotFoundError`), present but not valid JSON (`JSONDecodeError`), or
parsed to a value. -/
inductive ReadResult where
  | missing : ReadResult
  | unparsable : ReadResult
  | parsed : JValue → ReadResult
deriving DecidableEq

/-- Python runtime errors that the dashboard code can raise (and does not
catch) while traversing parsed JSON of unexpected shape. -/
inductive PyErr where
  | attributeError : PyErr
  | keyError : PyErr
  | typeError : PyErr
  | notRenderable : PyErr
deriving DecidableEq

/-- First-match field lookup in a JSON object (Python dicts have unique keys,
which object construction by `json.loads` guarantees). -/
def lookupField : List (String × JValue) → String → Option JValue
  | [], _ => none
  | (k', v) :: rest, k => if k' = k then some v else lookupField rest k

/-- Python truthiness of a parsed JSON value. -/
def truthy : JValue → Bool
  | .null => false
  | .bool b => b
  | .num n => decide (n ≠ 0)
  | .str s => decide (s ≠ "")
  | .arr l => !l.isEmpty
  | .obj l => !l.isEmpty

/-- `v.get(k, default)`: dict lookup with default; `AttributeError` when `v`
is not a dict. -/
def dictGet : JValue → String → JValue → Except PyErr JValue
  | .obj l, k, d => .ok ((lookupField l k).getD d)
  | _, _, _ => .error .attributeError

/-- `v[k]` subscription with a string key: `KeyError` when the key is absent
from a dict, `TypeError` when `v` is not subscriptable by strings. -/
def dictIndex : JValue → String → Except PyErr JValue
  | .obj l, k =>
      match lookupField l k with
      | some v => .ok v
      | none => .error .keyError
  | _, _ => .error .typeError

/-- A Python `for` loop over a parsed JSON value: lists yield their elements,
strings yield their characters as 1-character strings, dicts yield their
keys; scalars raise `TypeError`. -/
def pyIter : JValue → Except PyErr (List JValue)
  | .arr l => .ok l
  | .str s => .ok (s.toList.map (fun c => .str (String.mk [c])))
  | .obj l => .ok (l.map (fun kv => .str kv.1))
  | _ => .error .typeError

/-- Python hashability of a parsed JSON value: lists and dicts cannot be
used as dict keys (`TypeError: unhashable type`). -/
def hashable : JValue → Bool
  | .arr _ => false
  | .obj _ => false
  | _ => true

/-- `Path / value` accepts only strings (for JSON-shaped values); anything
else raises `TypeError`. -/
def asString : JValue → Except PyErr String
  | .str s => .ok s
  | _ => .error .typeError

/-- `rich.Table.add_row` accepts strings (or rich renderables, which the
dashboard's data never produces); any other value raises
`NotRenderableError`. -/
def renderCell : JValue → Except PyErr String
  | .str s => .ok s
  | _ => .error .notRenderable

mutual

/-- Python `repr` of a parsed JSON value, as produced when a composite value
is interpolated into an f-string. -/
def pyRepr : JValue → String
  | .null => "None"
  | .bool b => if b then "True" else "False"
  | .num n => toString n
  | .str s => "\x27" ++ s ++ "\x27"
  | .arr l => "[" ++ String.intercalate ", " (pyReprArr l) ++ "]"
  | .obj l => "\x7b" ++ String.intercalate ", " (pyReprObj l) ++ "\x7d"

/-- `repr` of the elements of a JSON array. -/
def pyReprArr : List JValue → List String
  | [] => []
  | v :: vs => pyRepr v :: pyReprArr vs

/-- `repr` of the fields of a JSON object. -/
def pyReprObj : List (String × JValue) → List String
  | [] => []
  | (k, v) :: vs => ("\x27" ++ k ++ "\x27: " ++ pyRepr v) :: pyReprObj vs

end

/-- Python `str()`, as applied by f-string interpolation. -/
def pyStr : JValue → String
  | .str s => s
  | v => pyRepr v

/-- Effectful left fold: a Python `for` loop whose body may raise. -/
def foldE {α β : Type} (f : β → α → Except PyErr β) : β → List α → Except PyErr β
  | b, [] => .ok b
  | b, a :: l =>
      match f b a with
      | .error e => .error e
      | .ok b' => foldE f b' l

/-- Effectful map, propagating the first raised error. -/
def mapE {α β : Type} (f : α → Except PyErr β) : List α → Except PyErr (List β)
  | [] => .ok []
  | a :: l =>
      match f a with
      | .error e => .error e
      | .ok b =>
          match mapE f l with
          | .error e => .error e
          | .ok bs => .ok (b :: bs)

/-! ## Source constants and loaders (`dashboard.py` lines 21–54) -/

/-- `PROJECTS_ROOT = Path.home() / "projects"`, as a path string with the
home directory abstracted as a parameter; path joins are modelled as
concatenation with `/` separators. -/
def projectsRoot (home : String) : String := home ++ "/projects"

/-- The fallback value `load_registry` returns when the registry file is
absent or not valid JSON (line 46). -/
def defaultRegistry (home : String) : JValue :=
  .obj [("version", .num 1), ("projects_root", .str (projectsRoot home)),
        ("projects", .arr [])]

/-- `load_registry()` (lines 42–46), with the read-and-parse outcome of the
registry file abstracted as a `ReadResult`; the `except` clause catches
exactly `FileNotFoundError` and `json.JSONDecodeError`. -/
def load_registry (home : String) : ReadResult → JValue
  | .parsed v => v
  | _ => defaultRegistry home

/-- The path `PROJECTS_ROOT / project_path / ".claude" / "tasks" /
"tasks.json"` that `load_tasks` reads (line 50).  The root here is the
module constant `PROJECTS_ROOT`, not the registry's `projects_root`
field. -/
def tasksFilePath (home project_path : String) : String :=
  projectsRoot home ++ "/" ++ project_path ++ "/.claude/tasks/tasks.json"

/-- Modelled from the spec (sections 4.2 and 6): the task-file location the
spec describes, `{projects_root}/{project.path}/<fixed subdirectory>/
tasks.json`, resolved against the *registry's* `projects_root` field.  Used
only to compare the spec's resolution rule with the source's. -/
def tasksFilePathSpec (projects_root project_path : String) : String :=
  projects_root ++ "/" ++ project_path ++ "/.claude/tasks/tasks.json"

/-- `load_tasks(project_path)` (lines 49–54), with file reads abstracted as
`taskRead`; the `except` clause catches exactly `FileNotFoundError` and
`json.JSONDecodeError`. -/
def load_tasks (taskRead : String → ReadResult) (home project_path : String) : JValue :=
  match taskRead (tasksFilePath home project_path) with
  | .parsed v => v
  | _ => .obj [("tasks", .arr [])]

/-! ## Progress bar (`make_progress_bar`, lines 57–63)

Python floats are modelled as exact rationals: `int(pct * width)` is
natural floor division, and the `{pct:>4.0%}` formatting rounds
`100 * done / total` to the nearest whole percent. -/

/-- `filled = int(done / total * width)` in exact arithmetic. -/
def filledOf (done total width : Nat) : Nat := done * width / total

/-- The whole percent printed by `{pct:>4.0%}`: `100 * done / total`
rounded to the nearest integer, in exact arithmetic. -/
def pctOf (done total : Nat) : Nat := (200 * done + total) / (2 * total)

/-- `n` copies of a character, as in Python string repetition (`c * n`);
a non-positive count yields the empty string, matching truncated `Nat`
subtraction at call sites. -/
def repChar (c : Char) (n : Nat) : String := String.mk (List.replicate n c)

/-- Right-alignment to a minimum field width, as in `{:>4}`. -/
def rightAlign (w : Nat) (s : String) : String := repChar ' ' (w - s.length) ++ s

/-- `make_progress_bar(done, total, width)` (lines 57–63). -/
def make_progress_bar (done total width : Nat) : String :=
  if total = 0 then "[dim]" ++ repChar '-' width ++ "[/]  --"
  else
    "[green]" ++ repChar '█' (filledOf done total width) ++ "[/][dim]"
      ++ repChar '░' (width - filledOf done total width) ++ "[/] "
      ++ rightAlign 4 (toString (pctOf done total) ++ "%")

/-! ## Aggregation (`build_display` data gathering, lines 66–93) -/

/-- The insertion-ordered counts dict: `counts[s] = counts.get(s, 0) + 1`
increments an existing key in place or appends a new one at the end. -/
def bump : List (JValue × Nat) → JValue → List (JValue × Nat)
  | [], k => [(k, 1)]
  | (k', v) :: rest, k =>
      if k' = k then (k', v + 1) :: rest else (k', v) :: bump rest k

/-- `counts.get(s, 0)` / `counts[s]` on the counts dict (every key actually
subscripted is present, so the two coincide here). -/
def lookupCount : List (JValue × Nat) → JValue → Nat
  | [], _ => 0
  | (k', v) :: rest, k => if k' = k then v else lookupCount rest k

/-- The initial counts dict (line 79). -/
def initCounts : List (JValue × Nat) :=
  [(.str "pending", 0), (.str "in_progress", 0), (.str "completed", 0),
   (.str "blocked", 0), (.str "failed", 0)]

/-- Sum of the values of a counts dict. -/
def sumCounts (c : List (JValue × Nat)) : Nat := (c.map Prod.snd).sum

/-- `t.get("title", t.get("id", "?"))` — the display title of a task
(lines 84 and 86). -/
def displayTitleE (t : JValue) : Except PyErr JValue := do
  let idv ← dictGet t "id" (.str "?")
  dictGet t "title" idv

/-- The accumulator threaded through the per-task loop: the counts dict and
the two global pair lists. -/
structure TaskAcc where
  counts : List (JValue × Nat)
  inProg : List (JValue × JValue)
  compl : List (JValue × JValue)

/-- The body of the per-task loop in `build_display` (lines 80–86). -/
def processTask (proj : JValue) (acc : TaskAcc) (t : JValue) :
    Except PyErr TaskAcc := do
  let s ← dictGet t "status" (.str "pending")
  if hashable s then
    let counts := bump acc.counts s
    let inProg ←
      if s = .str "in_progress" then do
        let name ← dictIndex proj "name"
        let title ← displayTitleE t
        pure (acc.inProg ++ [(name, title)])
      else pure acc.inProg
    let compl ←
      if s = .str "completed" then do
        let name ← dictIndex proj "name"
        let title ← displayTitleE t
        pure (acc.compl ++ [(name, title)])
      else pure acc.compl
    pure ⟨counts, inProg, compl⟩
  else .error .typeError

/-- One entry of `all_stats` (line 93): the raw project record, its counts
dict, task count, completed count, and milestone label. -/
structure Stat where
  proj : JValue
  counts : List (JValue × Nat)
  n : Nat
  done : Nat
  milestone : JValue

/-- The state of the data-gathering loop (lines 70–74). -/
structure Gathered where
  stats : List Stat
  inProg : List (JValue × JValue)
  compl : List (JValue × JValue)
  totalTasks : Nat
  totalDone : Nat

/-- One iteration of the per-project loop in `build_display`
(lines 76–93). -/
def processProject (home : String) (taskRead : String → ReadResult)
    (g : Gathered) (proj : JValue) : Except PyErr Gathered := do
  let pathV ← dictIndex proj "path"
  let path ← asString pathV
  let data := load_tasks taskRead home path
  let tasksV ← dictGet data "tasks" (.arr [])
  let tasks ← pyIter tasksV
  let acc ← foldE (processTask proj) ⟨initCounts, g.inProg, g.compl⟩ tasks
  let done := lookupCount acc.counts (.str "completed")
  let msV ← dictGet data "milestone" (.obj [])
  let milestone ← dictGet msV "name" (.str "")
  pure ⟨g.stats ++ [⟨proj, acc.counts, tasks.length, done, milestone⟩],
        acc.inProg, acc.compl, g.totalTasks + tasks.length, g.totalDone + done⟩

/-- The data-gathering phase of `build_display` (lines 66–93). -/
def gather (home : String) (taskRead : String → ReadResult) (reg : JValue) :
    Except PyErr Gathered := do
  let projsV ← dictGet reg "projects" (.arr [])
  let projs ← pyIter projsV
  foldE (processProject home taskRead) ⟨[], [], [], 0, 0⟩ projs

/-! ## Layout (`build_display` rendering, lines 95–176)

The wall-clock footer (line 169) and rich's styling objects are external;
the layout is modelled as the strings the code feeds them. -/

/-- `PROJECT_STATUS_ICONS.get(status, "?")` (lines 33–39 and 115). -/
def projectStatusIcon (v : JValue) : String :=
  if v = .str "buildable" then "[green]OK[/]"
  else if v = .str "near-buildable" then "[yellow]~OK[/]"
  else if v = .str "scaffolding-plus" then "[yellow]S+[/]"
  else if v = .str "scaffolding" then "[dim]S[/]"
  else if v = .str "blocked" then "[red]BLK[/]"
  else "?"

/-- `str(count or "")`: a zero count renders as the empty string. -/
def countCell (n : Nat) : String := if n = 0 then "" else toString n

/-- One row of the project table (lines 117–127). -/
structure Row where
  name : String
  icon : String
  pend : String
  run : String
  done : String
  blk : String
  fail : String
  bar : String
  milestone : String

/-- Building one project row (lines 114–127). -/
def rowOf (s : Stat) : Except PyErr Row := do
  let statusV ← dictGet s.proj "status" (.str "")
  if hashable statusV then
    let nameV ← dictIndex s.proj "name"
    let name ← renderCell nameV
    let milestone ← renderCell s.milestone
    pure ⟨name, projectStatusIcon statusV,
          countCell (lookupCount s.counts (.str "pending")),
          countCell (lookupCount s.counts (.str "in_progress")),
          countCell (lookupCount s.counts (.str "completed")),
          countCell (lookupCount s.counts (.str "blocked")),
          countCell (lookupCount s.counts (.str "failed")),
          make_progress_bar s.done s.n 20, milestone⟩
  else .error .typeError

/-- Sum of one status column over `all_stats` (lines 135–139). -/
def sumKey (stats : List Stat) (k : String) : Nat :=
  (stats.map (fun s => lookupCount s.counts (.str k))).sum

/-- The TOTAL row (lines 130–142). -/
def totalRowOf (g : Gathered) : Row :=
  ⟨"[bold]TOTAL[/]", "",
   countCell (sumKey g.stats "pending"),
   countCell (sumKey g.stats "in_progress"),
   countCell (sumKey g.stats "completed"),
   countCell (sumKey g.stats "blocked"),
   countCell (sumKey g.stats "failed"),
   make_progress_bar g.totalDone g.totalTasks 20,
   toString g.totalDone ++ "/" ++ toString g.totalTasks ++ " tasks"⟩

/-- One bullet line of the In Progress panel (line 147). -/
def ipLine (p : JValue × JValue) : String :=
  "  [cyan]>[/] [bold]" ++ pyStr p.1 ++ "[/]: " ++ pyStr p.2

/-- The In Progress panel text (lines 145–150). -/
def ipPanelOf (l : List (JValue × JValue)) : String :=
  if l.isEmpty then "  [dim]No tasks in progress[/]"
  else String.intercalate "\n" (l.map ipLine)

/-- One bullet line of the Recently Completed panel (line 157). -/
def rcLine (p : JValue × JValue) : String :=
  "  [green]✓[/] [dim]" ++ pyStr p.1 ++ "[/]: " ++ pyStr p.2

/-- `l[-n:]` — the last `n` entries of a list (all of it when shorter). -/
def lastN {α : Type _} (n : Nat) (l : List α) : List α := l.drop (l.length - n)

/-- The Recently Completed panel text (lines 154–160). -/
def rcPanelOf (recent : List (JValue × JValue)) : String :=
  if recent.isEmpty then "  [dim]No completed tasks yet[/]"
  else String.intercalate "\n" (recent.map rcLine)

/-- What `build_display` hands the terminal layer each cycle: the project
rows, the TOTAL row, the two accumulated pair lists, and the two panel
texts. -/
structure Display where
  rows : List Row
  totalRow : Row
  inProg : List (JValue × JValue)
  recent : List (JValue × JValue)
  ipPanel : String
  rcPanel : String

/-- `build_display(registry)` (lines 66–176), minus the wall-clock footer
line. -/
def buildDisplay (home : String) (taskRead : String → ReadResult)
    (reg : JValue) : Except PyErr Display := do
  let g ← gather home taskRead reg
  let rows ← mapE rowOf g.stats
  let recent := lastN 8 g.compl
  pure ⟨rows, totalRowOf g, g.inProg, recent, ipPanelOf g.inProg,
        rcPanelOf recent⟩

/-! ## Startup and refresh loop (`main`, lines 179–196) -/

/-- Outcome of the startup check. -/
inductive StartResult where
  | noProjects : StartResult
  | started : StartResult
deriving DecidableEq

/-- The message printed when the startup registry has no projects
(line 184). -/
def noProjectsMessage : String :=
  "[red]No projects found in ~/.jade/projects.json[/]"

/-- The startup check in `main` (lines 181–185): load the registry once and
test `not registry.get("projects")` by Python truthiness. -/
def startUp (home : String) (regRead : ReadResult) : Except PyErr StartResult := do
  let pv ← dictGet (load_registry home regRead) "projects" .null
  pure (if truthy pv then .started else .noProjects)

/-- `main` (lines 179–196): the startup check, then — in the Running
state — one `build_display` render per refresh tick.  `laterReads` lists the
outcome of each subsequent registry re-read (line 193); the `while True`
loop has no exit of its own, so a run interrupted after `k` ticks
corresponds to a `laterReads` of length `k`. -/
def mainRun (home : String) (taskRead : String → ReadResult)
    (regRead0 : ReadResult) (laterReads : List ReadResult) :
    Except PyErr (List Display) := do
  match ← startUp home regRead0 with
  | .noProjects => pure []
  | .started =>
      let first ← buildDisplay home taskRead (load_registry home regRead0)
      let rest ← mapE (fun r => buildDisplay home taskRead (load_registry home r))
        laterReads
      pure (first :: rest)

/-! ## Specification-level accessors

Non-monadic views of the same data, used to state encounter-order and
fallback properties of the monadic pipeline; each conclusion relating them
to the pipeline is guarded by the pipeline's success. -/

/-- The list a Python `for` loop iterates, with `[]` where iteration would
raise. -/
def pyIterD (v : JValue) : List JValue :=
  match pyIter v with
  | .ok l => l
  | .error _ => []

/-- The project records of a registry value, as iterated by the gathering
loop. -/
def projectsOf (reg : JValue) : List JValue :=
  match reg with
  | .obj l => pyIterD ((lookupField l "projects").getD (.arr []))
  | _ => []

/-- `proj["name"]`, defaulting to `null` where subscription would raise. -/
def nameOf (proj : JValue) : JValue :=
  match proj with
  | .obj l => (lookupField l "name").getD .null
  | _ => .null

/-- `proj["path"]` when it is a string (the only shape the pipeline accepts
without raising). -/
def pathOf (proj : JValue) : Option String :=
  match proj with
  | .obj l =>
      match lookupField l "path" with
      | some (.str p) => some p
      | _ => none
  | _ => none

/-- The task records loaded and iterated for one project. -/
def tasksOf (home : String) (taskRead : String → ReadResult) (proj : JValue) :
    List JValue :=
  match pathOf proj with
  | some p =>
      match load_tasks taskRead home p with
      | .obj l => pyIterD ((lookupField l "tasks").getD (.arr []))
      | _ => []
  | none => []

/-- `data.get("milestone", {}).get("name", "")` — the milestone label loaded
for one project (meaningful for the shapes the pipeline accepts without
raising). -/
def milestoneOf (home : String) (taskRead : String → ReadResult) (proj : JValue) :
    JValue :=
  match pathOf proj with
  | some p =>
      match load_tasks taskRead home p with
      | .obj l =>
          match (lookupField l "milestone").getD (.obj []) with
          | .obj ml => (lookupField ml "name").getD (.str "")
          | _ => .str ""
      | _ => .str ""
  | none => .str ""

/-- `t.get("status", "pending")` — the effective status used for counting
(meaningful for dict-shaped tasks, the only shape the pipeline accepts). -/
def effStatus (t : JValue) : JValue :=
  match t with
  | .obj l => (lookupField l "status").getD (.str "pending")
  | _ => .str "pending"

/-- `t.get("title", t.get("id", "?"))` as a total function on dict-shaped
tasks. -/
def displayTitle (t : JValue) : JValue :=
  match t with
  | .obj l => (lookupField l "title").getD ((lookupField l "id").getD (.str "?"))
  | _ => .str "?"

/-- The `(project name, display title)` entries one project contributes to
the accumulator for one exact status value, in task order. -/
def entriesFor (home : String) (taskRead : String → ReadResult)
    (status : String) (proj : JValue) : List (JValue × JValue) :=
  ((tasksOf home taskRead proj).filter
      (fun t => decide (effStatus t = .str status))).map
    (fun t => (nameOf proj, displayTitle t))

/-! ## Well-shapedness of parsed data

Decidable predicates describing the external-interface schema (spec
section 6); data of these shapes is traversed by the pipeline without
raising. -/

/-- The field is absent or holds a string. -/
def optStrField (l : List (String × JValue)) (k : String) : Bool :=
  match lookupField l k with
  | none => true
  | some (.str _) => true
  | some _ => false

/-- The field is present and holds a string. -/
def isStrField (l : List (String × JValue)) (k : String) : Bool :=
  match lookupField l k with
  | some (.str _) => true
  | _ => false

/-- A well-shaped task record: a dict whose `status`, `title` and `id`
fields, where present, are strings. -/
def wfTask : JValue → Bool
  | .obj l => optStrField l "status" && optStrField l "title" && optStrField l "id"
  | _ => false

/-- A well-shaped task file: a dict whose `tasks` field, if present, is a
list of well-shaped task records, and whose `milestone` field, if present,
is a dict with an absent-or-string `name`. -/
def wfTaskFile : JValue → Bool
  | .obj l =>
      (match lookupField l "tasks" with
       | none => true
       | some (.arr ts) => ts.all wfTask
       | some _ => false)
      &&
      (match lookupField l "milestone" with
       | none => true
       | some (.obj ml) => optStrField ml "name"
       | some _ => false)
  | _ => false

/-- A well-shaped project record: a dict with string `name` and `path` and
an absent-or-string `status`. -/
def wfProject : JValue → Bool
  | .obj l => isStrField l "name" && isStrField l "path" && optStrField l "status"
  | _ => false

/-- A well-shaped registry: a dict whose `projects` field, if present, is a
list of well-shaped project records. -/
def wfRegistry : JValue → Bool
  | .obj l =>
      match lookupField l "projects" with
      | none => true
      | some (.arr ps) => ps.all wfProject
      | some _ => false
  | _ => false

/-- A read outcome that the pipeline tolerates: a missing file, an
unparsable file, or a value satisfying the given shape predicate. -/
def wfRead (pred : JValue → Bool) : ReadResult → Bool
  | .parsed v => pred v
  | _ => true

/-! ## Arithmetic helper lemmas -/

/-- Natural floor division agrees with the rational floor. -/
lemma int_floor_nat_div (a b : ℕ) (hb : 0 < b) :
    ⌊(a : ℚ) / (b : ℚ)⌋ = ((a / b : ℕ) : ℤ) := by
  have hb' : (0 : ℚ) < (b : ℚ) := by exact_mod_cast hb
  rw [Int.floor_eq_iff]
  constructor
  · rw [le_div_iff₀ hb']
    have h1 : (a / b : ℕ) * b ≤ a := Nat.div_mul_le_self a b
    push_cast
    exact_mod_cast h1
  · rw [div_lt_iff₀ hb']
    have h2 : a < ((a / b : ℕ) + 1) * b :=
      calc a = a / b * b + a % b := (Nat.div_add_mod' a b).symm
        _ < a / b * b + b := Nat.add_lt_add_left (Nat.mod_lt a hb) _
        _ = (a / b + 1) * b := by ring
    push_cast
    exact_mod_cast h2

/-! ## Except-monad reduction lemmas -/

@[simp] lemma except_bind_ok {α β : Type} (a : α) (f : α → Except PyErr β) :
    (Except.ok a >>= f) = f a := rfl

@[simp] lemma except_bind_error {α β : Type} (e : PyErr) (f : α → Except PyErr β) :
    ((Except.error e : Except PyErr α) >>= f) = .error e := rfl

@[simp] lemma except_map_ok {α β : Type} (f : α → β) (a : α) :
    (f <$> (Except.ok a : Except PyErr α)) = .ok (f a) := rfl

@[simp] lemma except_map_error {α β : Type} (f : α → β) (e : PyErr) :
    (f <$> (Except.error e : Except PyErr α)) = .error e := rfl

@[simp] lemma except_pure_eq (α : Type) (a : α) :
    (pure a : Except PyErr α) = .ok a := rfl

lemma displayTitleE_obj (l : List (String × JValue)) :
    displayTitleE (.obj l) = .ok (displayTitle (.obj l)) := by
  simp [displayTitleE, displayTitle, dictGet, Bind.bind, Except.bind]

lemma dictIndex_ok_name (proj name : JValue) (h : dictIndex proj "name" = .ok name) :
    name = nameOf proj := by
  cases proj with
  | obj l =>
      simp only [dictIndex] at h
      cases hl : lookupField l "name" with
      | none => rw [hl] at h; simp at h
      | some v => rw [hl] at h; simp at h; simp [nameOf, hl, h]
  | null => simp [dictIndex] at h
  | bool b => simp [dictIndex] at h
  | num n => simp [dictIndex] at h
  | str s => simp [dictIndex] at h
  | arr a => simp [dictIndex] at h

lemma processTask_inv (proj : JValue) (acc : TaskAcc) (t : JValue) (acc' : TaskAcc)
    (h : processTask proj acc t = .ok acc') :
    acc'.counts = bump acc.counts (effStatus t)
    ∧ (effStatus t = .str "in_progress" →
        acc'.inProg = acc.inProg ++ [(nameOf proj, displayTitle t)])
    ∧ (effStatus t ≠ .str "in_progress" → acc'.inProg = acc.inProg)
    ∧ (effStatus t = .str "completed" →
        acc'.compl = acc.compl ++ [(nameOf proj, displayTitle t)])
    ∧ (effStatus t ≠ .str "completed" → acc'.compl = acc.compl) := by
  cases t with
  | obj l =>
      have hst : effStatus (.obj l) = (lookupField l "status").getD (.str "pending") := rfl
      rw [hst]
      simp only [processTask, dictGet, except_bind_ok, except_bind_error] at h
      set s := (lookupField l "status").getD (.str "pending") with hs
      by_cases hna : hashable s = true
      · rw [if_pos hna] at h
        by_cases hip : s = .str "in_progress"
        · have hco : s ≠ .str "completed" := by rw [hip]; decide
          rw [if_pos hip] at h
          cases hname : dictIndex proj "name" with
          | error e => rw [hname] at h; simp at h
          | ok name =>
              rw [hname, displayTitleE_obj] at h
              simp only [except_bind_ok, except_pure_eq] at h
              rw [if_neg hco] at h
              simp only [except_bind_ok, except_pure_eq, Except.ok.injEq] at h
              subst h
              refine ⟨rfl, fun _ => ?_, fun hn => absurd hip hn, fun hc => absurd hc hco,
                fun _ => rfl⟩
              rw [dictIndex_ok_name proj name hname]
        · rw [if_neg hip] at h
          simp only [except_bind_ok, except_pure_eq] at h
          by_cases hco : s = .str "completed"
          · rw [if_pos hco] at h
            cases hname : dictIndex proj "name" with
            | error e => rw [hname] at h; simp at h
            | ok name =>
                rw [hname, displayTitleE_obj] at h
                simp only [except_bind_ok, except_pure_eq, except_map_ok,
                  Except.ok.injEq] at h
                subst h
                refine ⟨rfl, fun hi => absurd hi hip, fun _ => rfl, fun _ => ?_,
                  fun hn => absurd hco hn⟩
                rw [dictIndex_ok_name proj name hname]
          · rw [if_neg hco] at h
            simp only [except_bind_ok, except_pure_eq, Except.ok.injEq] at h
            subst h
            exact ⟨rfl, fun hi => absurd hi hip, fun _ => rfl, fun hc => absurd hc hco,
              fun _ => rfl⟩
      · rw [if_neg hna] at h
        simp at h
  | null => simp [processTask, dictGet] at h
  | bool b => simp [processTask, dictGet] at h
  | num n => simp [processTask, dictGet] at h
  | str s => simp [processTask, dictGet] at h
  | arr a => simp [processTask, dictGet] at h



/-! ## Counts-dict lemmas -/

@[simp] lemma sumCounts_nil : sumCounts [] = 0 := rfl

@[simp] lemma sumCounts_cons (k : JValue) (v : Nat) (rest : List (JValue × Nat)) :
    sumCounts ((k, v) :: rest) = v + sumCounts rest := by
  simp [sumCounts]

/-- Incrementing one key adds one to the total of the counts dict. -/
lemma sumCounts_bump (c : List (JValue × Nat)) (k : JValue) :
    sumCounts (bump c k) = sumCounts c + 1 := by
  induction c with
  | nil => simp [bump]
  | cons kv rest ih =>
      obtain ⟨k', v⟩ := kv
      by_cases h : k' = k
      · simp [bump, h]
        omega
      · simp [bump, h, ih]
        omega

/-- Incrementing key `k` changes exactly the count of `k`. -/
lemma lookupCount_bump (c : List (JValue × Nat)) (k k' : JValue) :
    lookupCount (bump c k) k' = lookupCount c k' + if k' = k then 1 else 0 := by
  induction c with
  | nil =>
      by_cases h : k = k'
      · simp [bump, lookupCount, h]
      · rw [if_neg (fun hh : k' = k => h hh.symm)]
        simp [bump, lookupCount, h]
  | cons kv rest ih =>
      obtain ⟨k₀, v⟩ := kv
      by_cases h0 : k₀ = k
      · subst h0
        by_cases h1 : k₀ = k'
        · subst h1
          simp [bump, lookupCount]
        · rw [if_neg (fun hh : k' = k₀ => h1 hh.symm)]
          simp [bump, lookupCount, h1]
      · by_cases h1 : k₀ = k'
        · subst h1
          simp [bump, lookupCount, h0, ih]
        · simp [bump, lookupCount, h0, h1, ih]

/-- Characterization of the per-task loop over a whole task list. -/
lemma foldE_processTask_inv (proj : JValue) (tasks : List JValue) :
    ∀ acc st', foldE (processTask proj) acc tasks = .ok st' →
      sumCounts st'.counts = sumCounts acc.counts + tasks.length
      ∧ (∀ s, lookupCount st'.counts s
          = lookupCount acc.counts s
            + tasks.countP (fun t => decide (effStatus t = s)))
      ∧ st'.inProg = acc.inProg
          ++ (tasks.filter (fun t => decide (effStatus t = .str "in_progress"))).map
              (fun t => (nameOf proj, displayTitle t))
      ∧ st'.compl = acc.compl
          ++ (tasks.filter (fun t => decide (effStatus t = .str "completed"))).map
              (fun t => (nameOf proj, displayTitle t)) := by
  induction tasks with
  | nil =>
      intro acc st' h
      simp only [foldE] at h
      cases h
      simp
  | cons t rest ih =>
      intro acc st' h
      simp only [foldE] at h
      cases hstep : processTask proj acc t with
      | error e => rw [hstep] at h; cases h
      | ok acc1 =>
          rw [hstep] at h
          obtain ⟨hc, hip, hnip, hco, hnco⟩ := processTask_inv proj acc t acc1 hstep
          obtain ⟨ihsum, ihcnt, ihip, ihco⟩ := ih acc1 st' h
          refine ⟨?_, ?_, ?_, ?_⟩
          · rw [ihsum, hc, sumCounts_bump]
            simp [List.length_cons]
            omega
          · intro s
            rw [ihcnt s, hc, lookupCount_bump, List.countP_cons]
            by_cases hs : effStatus t = s
            · simp [hs]
              omega
            · rw [if_neg (fun hh : s = effStatus t => hs hh.symm)]
              simp [hs]
          · rw [ihip, List.filter_cons]
            by_cases hs : effStatus t = .str "in_progress"
            · rw [hip hs]
              simp [hs]
            · rw [hnip hs]
              simp [hs]
          · rw [ihco, List.filter_cons]
            by_cases hs : effStatus t = .str "completed"
            · rw [hco hs]
              simp [hs]
            · rw [hnco hs]
              simp [hs]


/-! ## Pipeline inversion lemmas -/
lemma dictIndex_path_str (proj : JValue) (p : String)
    (h : dictIndex proj "path" = .ok (.str p)) : pathOf proj = some p := by
  cases proj with
  | obj l =>
      simp only [dictIndex] at h
      cases hl : lookupField l "path" with
      | none => rw [hl] at h; simp at h
      | some v =>
          rw [hl] at h
          simp at h
          simp [pathOf, hl, h]
  | null => simp [dictIndex] at h
  | bool b => simp [dictIndex] at h
  | num n => simp [dictIndex] at h
  | str s => simp [dictIndex] at h
  | arr a => simp [dictIndex] at h

/-- Characterization of one successful iteration of the per-project loop. -/
lemma processProject_inv (home : String) (taskRead : String → ReadResult)
    (g : Gathered) (proj : JValue) (g' : Gathered)
    (h : processProject home taskRead g proj = .ok g') :
    ∃ st : TaskAcc,
      foldE (processTask proj) ⟨initCounts, g.inProg, g.compl⟩
          (tasksOf home taskRead proj) = .ok st
      ∧ g'.stats = g.stats ++ [⟨proj, st.counts, (tasksOf home taskRead proj).length,
            lookupCount st.counts (.str "completed"), milestoneOf home taskRead proj⟩]
      ∧ g'.inProg = st.inProg
      ∧ g'.compl = st.compl
      ∧ g'.totalTasks = g.totalTasks + (tasksOf home taskRead proj).length
      ∧ g'.totalDone = g.totalDone + lookupCount st.counts (.str "completed") := by
  simp only [processProject] at h
  cases hpath : dictIndex proj "path" with
  | error e => rw [hpath] at h; simp at h
  | ok pathV =>
      rw [hpath] at h
      simp only [except_bind_ok] at h
      cases pathV with
      | str p =>
          simp only [asString, except_bind_ok] at h
          have hpOf : pathOf proj = some p := dictIndex_path_str proj p hpath
          cases hdat : load_tasks taskRead home p with
          | obj dl =>
              rw [hdat] at h
              simp only [dictGet, except_bind_ok] at h
              cases hiter : pyIter ((lookupField dl "tasks").getD (.arr [])) with
              | error e => rw [hiter] at h; simp at h
              | ok tasks =>
                  rw [hiter] at h
                  simp only [except_bind_ok] at h
                  have htasks : tasksOf home taskRead proj = tasks := by
                    simp only [tasksOf, hpOf]
                    rw [hdat]
                    simp only [pyIterD, hiter]
                  cases hfold : foldE (processTask proj)
                      ⟨initCounts, g.inProg, g.compl⟩ tasks with
                  | error e => rw [hfold] at h; simp at h
                  | ok st =>
                      rw [hfold] at h
                      simp only [except_bind_ok] at h
                      cases hms : (lookupField dl "milestone").getD (.obj []) with
                      | obj ml =>
                          rw [hms] at h
                          simp only [dictGet, except_bind_ok, except_pure_eq,
                            Except.ok.injEq] at h
                          have hmile : milestoneOf home taskRead proj
                              = (lookupField ml "name").getD (.str "") := by
                            simp only [milestoneOf, hpOf]
                            rw [hdat]
                            simp only [hms]
                          refine ⟨st, htasks ▸ hfold, ?_, ?_, ?_, ?_, ?_⟩ <;>
                            rw [← h] <;> simp [htasks, hmile]
                      | null => rw [hms] at h; simp [dictGet] at h
                      | bool b => rw [hms] at h; simp [dictGet] at h
                      | num n => rw [hms] at h; simp [dictGet] at h
                      | str s => rw [hms] at h; simp [dictGet] at h
                      | arr a => rw [hms] at h; simp [dictGet] at h
          | null => rw [hdat] at h; simp [dictGet] at h
          | bool b => rw [hdat] at h; simp [dictGet] at h
          | num n => rw [hdat] at h; simp [dictGet] at h
          | str s => rw [hdat] at h; simp [dictGet] at h
          | arr a => rw [hdat] at h; simp [dictGet] at h
      | null => simp [asString] at h
      | bool b => simp [asString] at h
      | num n => simp [asString] at h
      | arr a => simp [asString] at h
      | obj o => simp [asString] at h

/-- Characterization of the per-project loop over a whole project list. -/
lemma foldE_processProject_inv (home : String) (taskRead : String → ReadResult)
    (projs : List JValue) :
    ∀ g g', foldE (processProject home taskRead) g projs = .ok g' →
      g'.inProg = g.inProg
          ++ projs.flatMap (fun pr => entriesFor home taskRead "in_progress" pr)
      ∧ g'.compl = g.compl
          ++ projs.flatMap (fun pr => entriesFor home taskRead "completed" pr) := by
  induction projs with
  | nil =>
      intro g g' h
      simp only [foldE] at h
      cases h
      simp
  | cons pr rest ih =>
      intro g g' h
      simp only [foldE] at h
      cases hstep : processProject home taskRead g pr with
      | error e => rw [hstep] at h; cases h
      | ok g1 =>
          rw [hstep] at h
          obtain ⟨st, hfold, hstats, hip, hco, htt, htd⟩ :=
            processProject_inv home taskRead g pr g1 hstep
          obtain ⟨hsum, hcnt, hstip, hstco⟩ :=
            foldE_processTask_inv pr (tasksOf home taskRead pr) _ _ hfold
          obtain ⟨ihip, ihco⟩ := ih g1 g' h
          constructor
          · rw [ihip, hip, hstip]
            simp [entriesFor, List.append_assoc]
          · rw [ihco, hco, hstco]
            simp [entriesFor, List.append_assoc]

/-- Characterization of a successful data-gathering phase: the two pair
lists are the encounter-order accumulators. -/
lemma gather_inv (home : String) (taskRead : String → ReadResult) (reg : JValue)
    (g : Gathered) (h : gather home taskRead reg = .ok g) :
    g.inProg = (projectsOf reg).flatMap
        (fun pr => entriesFor home taskRead "in_progress" pr)
    ∧ g.compl = (projectsOf reg).flatMap
        (fun pr => entriesFor home taskRead "completed" pr) := by
  simp only [gather] at h
  cases reg with
  | obj l =>
      simp only [dictGet, except_bind_ok] at h
      cases hiter : pyIter ((lookupField l "projects").getD (.arr [])) with
      | error e => rw [hiter] at h; simp at h
      | ok projs =>
          rw [hiter] at h
          simp only [except_bind_ok] at h
          have hpof : projectsOf (.obj l) = projs := by
            simp only [projectsOf, pyIterD, hiter]
          obtain ⟨hip, hco⟩ := foldE_processProject_inv home taskRead projs _ _ h
          rw [hpof]
          simpa using ⟨hip, hco⟩
  | null => simp [dictGet] at h
  | bool b => simp [dictGet] at h
  | num n => simp [dictGet] at h
  | str s => simp [dictGet] at h
  | arr a => simp [dictGet] at h

/-! ## lastN lemmas -/

lemma lastN_length {α : Type _} (n : Nat) (l : List α) :
    (lastN n l).length = min n l.length := by
  simp only [lastN, List.length_drop]
  omega

lemma lastN_suffix {α : Type _} (n : Nat) (l : List α) : lastN n l <:+ l :=
  List.drop_suffix _ _

/-! ## Witness fixtures: a concrete home, registry and task file -/

def wHome : String := "/h"

/-- A task with no `status` (counts as pending) and an `id` only. -/
def wTask1 : JValue := .obj [("id", .str "a")]

/-- A task with an unrecognized status string. -/
def wTask2 : JValue := .obj [("status", .str "weird")]

/-- A completed task with a title. -/
def wTask3 : JValue := .obj [("status", .str "completed"), ("title", .str "T3")]

/-- An in-progress task with neither title nor id. -/
def wTask4 : JValue := .obj [("status", .str "in_progress")]

def wTasks : List JValue := [wTask1, wTask2, wTask3, wTask4]

def wProj : JValue :=
  .obj [("name", .str "P"), ("path", .str "pp"), ("status", .str "buildable")]

def wRead : String → ReadResult := fun p =>
  if p = tasksFilePath wHome "pp" then .parsed (.obj [("tasks", .arr wTasks)])
  else .missing

def wReg : JValue :=
  .obj [("version", .num 1), ("projects_root", .str (projectsRoot wHome)),
        ("projects", .arr [wProj])]

def wSt : TaskAcc :=
  match foldE (processTask wProj) ⟨initCounts, [], []⟩ wTasks with
  | .ok st => st
  | .error _ => ⟨[], [], []⟩

def wGathered : Gathered :=
  match gather wHome wRead wReg with
  | .ok g => g
  | .error _ => ⟨[], [], [], 0, 0⟩

def wDisplay : Display :=
  match buildDisplay wHome wRead wReg with
  | .ok d => d
  | .error _ => ⟨[], totalRowOf ⟨[], [], [], 0, 0⟩, [], [], "", ""⟩

/-! ## Claims -/

/-- C2: for every project and every task list loaded for it, the sum of the
per-status counts computed by the aggregation equals the length of the task
list; a task with an absent status is counted as "pending" (`effStatus`
defaults an absent status to the string `"pending"`), and a task with an
unrecognized status string is still counted under that literal string
rather than dropped (the per-key conjunct holds for every key `s`,
recognized or not). -/
theorem c2_counts_sum_eq_length (proj : JValue)
    (ip0 comp0 : List (JValue × JValue)) (tasks : List JValue) (st : TaskAcc)
    (h : foldE (processTask proj) ⟨initCounts, ip0, comp0⟩ tasks = .ok st) :
    sumCounts st.counts = tasks.length
    ∧ ∀ s : JValue, lookupCount st.counts s
        = lookupCount initCounts s
          + tasks.countP (fun t => decide (effStatus t = s)) := by
  obtain ⟨hsum, hcnt, _, _⟩ := foldE_processTask_inv proj tasks _ _ h
  refine ⟨?_, hcnt⟩
  rw [hsum]
  simp [show sumCounts initCounts = 0 from rfl]

/-- Witness for C2 on the concrete task list `wTasks`. -/
theorem c2_counts_sum_eq_length_witness :
    sumCounts wSt.counts = wTasks.length :=
  (c2_counts_sum_eq_length wProj [] [] wTasks wSt rfl).1

/-- C5: for every registry and set of per-project task lists, the
recently-completed list equals the last 8 entries of the
completed-accumulator built in encounter order (project order, then task
order, for tasks whose status is exactly `"completed"`); its length is
`min 8 (number of completed tasks)`, it never exceeds 8 entries, and —
being a suffix of the accumulator — it preserves relative encounter
order. -/
theorem c5_recently_completed (home : String) (taskRead : String → ReadResult)
    (reg : JValue) (g : Gathered) (d : Display)
    (hg : gather home taskRead reg = .ok g)
    (hd : buildDisplay home taskRead reg = .ok d) :
    d.recent = lastN 8 g.compl
    ∧ g.compl = (projectsOf reg).flatMap
        (fun pr => entriesFor home taskRead "completed" pr)
    ∧ d.recent.length = min 8 g.compl.length
    ∧ d.recent.length ≤ 8
    ∧ d.recent <:+ g.compl := by
  have hrec : d.recent = lastN 8 g.compl := by
    simp only [buildDisplay, hg, except_bind_ok] at hd
    cases hrows : mapE rowOf g.stats with
    | error e => rw [hrows] at hd; simp at hd
    | ok rows =>
        rw [hrows] at hd
        simp only [except_bind_ok, except_pure_eq, Except.ok.injEq] at hd
        rw [← hd]
  refine ⟨hrec, (gather_inv home taskRead reg g hg).2, ?_, ?_, ?_⟩
  · rw [hrec]
    exact lastN_length 8 g.compl
  · rw [hrec, lastN_length]
    exact Nat.min_le_left _ _
  · rw [hrec]
    exact lastN_suffix 8 g.compl

/-- Witness for C5 on the concrete registry `wReg`. -/
theorem c5_recently_completed_witness :
    wDisplay.recent = lastN 8 wGathered.compl :=
  (c5_recently_completed wHome wRead wReg wGathered wDisplay rfl rfl).1

/-- C9: both the in-progress list and the recently-completed list of the
display pair project names with `t.get("title", t.get("id", "?"))`
(`displayTitle`, which `entriesFor` applies to every accumulated task):
the display title is the title field if present, else the id field if
present, else the literal `"?"` — so a task record missing both fields
shows `"?"` in either list. -/
theorem c9_title_fallback (home : String) (taskRead : String → ReadResult)
    (reg : JValue) (g : Gathered) (d : Display)
    (hg : gather home taskRead reg = .ok g)
    (hd : buildDisplay home taskRead reg = .ok d) :
    d.inProg = (projectsOf reg).flatMap
        (fun pr => entriesFor home taskRead "in_progress" pr)
    ∧ d.recent = lastN 8 ((projectsOf reg).flatMap
        (fun pr => entriesFor home taskRead "completed" pr))
    ∧ (∀ (l : List (String × JValue)) (v : JValue),
        lookupField l "title" = some v → displayTitle (.obj l) = v)
    ∧ (∀ (l : List (String × JValue)) (v : JValue),
        lookupField l "title" = none → lookupField l "id" = some v →
        displayTitle (.obj l) = v)
    ∧ (∀ l : List (String × JValue), lookupField l "title" = none →
        lookupField l "id" = none → displayTitle (.obj l) = .str "?") := by
  obtain ⟨hip, hco⟩ := gather_inv home taskRead reg g hg
  have hdd : d.inProg = g.inProg ∧ d.recent = lastN 8 g.compl := by
    simp only [buildDisplay, hg, except_bind_ok] at hd
    cases hrows : mapE rowOf g.stats with
    | error e => rw [hrows] at hd; simp at hd
    | ok rows =>
        rw [hrows] at hd
        simp only [except_bind_ok, except_pure_eq, Except.ok.injEq] at hd
        rw [← hd]
        exact ⟨rfl, rfl⟩
  refine ⟨hdd.1.trans hip, by rw [hdd.2, hco], ?_, ?_, ?_⟩
  · intro l v h1
    simp [displayTitle, h1]
  · intro l v h1 h2
    simp [displayTitle, h1, h2]
  · intro l h1 h2
    simp [displayTitle, h1, h2]

/-- Witness for C9 on the fixture: the recently-completed list is drawn
from the completed accumulator (whose entries carry `displayTitle`), and a
task with neither title nor id has display title `"?"`. -/
theorem c9_title_fallback_witness :
    wDisplay.inProg = (projectsOf wReg).flatMap
        (fun pr => entriesFor wHome wRead "in_progress" pr)
    ∧ wDisplay.recent = lastN 8 ((projectsOf wReg).flatMap
        (fun pr => entriesFor wHome wRead "completed" pr))
    ∧ displayTitle (.obj []) = .str "?" :=
  ⟨(c9_title_fallback wHome wRead wReg wGathered wDisplay rfl rfl).1,
   (c9_title_fallback wHome wRead wReg wGathered wDisplay rfl rfl).2.1,
   (c9_title_fallback wHome wRead wReg wGathered wDisplay rfl rfl).2.2.2.2
     [] rfl rfl⟩

/-- C3: for all inputs `done`, `total`, `width` of the ratio formatter:
when `total == 0` the output is the fixed indeterminate placeholder
(all-unfilled track, literal placeholder text, no percentage) regardless of
`done`; when `total > 0` the output renders `filled = floor((done/total) *
width)` full cells followed by `width - filled` empty cells, plus a
percentage rounded to the nearest whole percent. -/
theorem c3_make_progress_bar_shape (done total width : Nat) :
    (make_progress_bar done 0 width = "[dim]" ++ repChar '-' width ++ "[/]  --"
      ∧ make_progress_bar done 0 width = make_progress_bar 0 0 width)
    ∧ (0 < total →
        make_progress_bar done total width
          = "[green]" ++ repChar '█' (filledOf done total width) ++ "[/][dim]"
            ++ repChar '░' (width - filledOf done total width) ++ "[/] "
            ++ rightAlign 4 (toString (pctOf done total) ++ "%")
        ∧ ((filledOf done total width : ℤ)
            = ⌊(done : ℚ) / (total : ℚ) * (width : ℚ)⌋)
        ∧ ((pctOf done total : ℤ) = round ((done : ℚ) / (total : ℚ) * 100))) := by
  constructor
  · exact ⟨rfl, rfl⟩
  · intro ht
    have ht' : total ≠ 0 := Nat.pos_iff_ne_zero.mp ht
    have htq : (0 : ℚ) < (total : ℚ) := by exact_mod_cast ht
    refine ⟨by rw [make_progress_bar, if_neg ht'], ?_, ?_⟩
    · have harg : (done : ℚ) / (total : ℚ) * (width : ℚ)
          = ((done * width : ℕ) : ℚ) / ((total : ℕ) : ℚ) := by
        push_cast
        ring
      rw [harg, int_floor_nat_div _ _ ht]
      rfl
    · have harg : (done : ℚ) / (total : ℚ) * 100 + 1 / 2
          = ((200 * done + total : ℕ) : ℚ) / ((2 * total : ℕ) : ℚ) := by
        push_cast
        field_simp
        ring
      rw [round_eq, harg, int_floor_nat_div _ _ (by omega)]
      rfl

/-- Witness for C3 at `done = 1`, `total = 3`, `width = 20`. -/
theorem c3_make_progress_bar_shape_witness :
    0 < 3 ∧ make_progress_bar 1 3 20
      = "[green]" ++ repChar '█' (filledOf 1 3 20) ++ "[/][dim]"
        ++ repChar '░' (20 - filledOf 1 3 20) ++ "[/] "
        ++ rightAlign 4 (toString (pctOf 1 3) ++ "%") :=
  ⟨by decide, ((c3_make_progress_bar_shape 1 3 20).2 (by decide)).1⟩

/-- C4: for the ratio formatter with fixed `total > 0` and fixed `width`,
`filled` is monotonically non-decreasing as `done` increases, `filled ==
width` when `done == total`, and `filled == 0` when `done == 0`. -/
theorem c4_filled_monotone (total width : Nat) (h : 0 < total) :
    (∀ d₁ d₂, d₁ ≤ d₂ → filledOf d₁ total width ≤ filledOf d₂ total width)
    ∧ filledOf total total width = width
    ∧ filledOf 0 total width = 0 := by
  refine ⟨fun d₁ d₂ hd => Nat.div_le_div_right (Nat.mul_le_mul_right width hd),
    ?_, by simp [filledOf]⟩
  unfold filledOf
  exact Nat.mul_div_cancel_left width h

/-- Witness for C4 at `total = 2`, `width = 4`. -/
theorem c4_filled_monotone_witness :
    0 < 2 ∧ filledOf 2 2 4 = 4 :=
  ⟨by decide, (c4_filled_monotone 2 4 (by decide)).2.1⟩



/-- C1: for every refresh cycle, a missing or unparsable registry file makes
`load_registry` return the well-defined empty Registry (version tag, default
root, empty project list), so the resulting display has zero projects; and a
missing or unparsable per-project task file makes `load_tasks` return an
empty task sequence, so that project appears with all-zero counts.  In
neither case does an error abort the cycle: both loaders are total and the
cycle shown succeeds. -/
theorem c1_missing_or_unparsable_sources (home : String)
    (taskRead : String → ReadResult) (regRead : ReadResult)
    (hreg : regRead = .missing ∨ regRead = .unparsable) :
    load_registry home regRead = defaultRegistry home
    ∧ (∃ d : Display,
        buildDisplay home taskRead (load_registry home regRead) = .ok d
        ∧ d.rows = [] ∧ d.inProg = [] ∧ d.recent = [])
    ∧ (∀ p : String,
        taskRead (tasksFilePath home p) = .missing
          ∨ taskRead (tasksFilePath home p) = .unparsable →
        load_tasks taskRead home p = .obj [("tasks", .arr [])])
    ∧ (∀ (g : Gathered) (l : List (String × JValue)) (p : String),
        lookupField l "path" = some (.str p) →
        (taskRead (tasksFilePath home p) = .missing
          ∨ taskRead (tasksFilePath home p) = .unparsable) →
        ∃ g', processProject home taskRead g (.obj l) = .ok g'
          ∧ g'.stats = g.stats ++ [⟨.obj l, initCounts, 0, 0, .str ""⟩]
          ∧ sumCounts initCounts = 0
          ∧ (∀ s, lookupCount initCounts s = 0)) := by
  have hz : ∀ s, lookupCount initCounts s = 0 := by
    intro s
    simp only [initCounts, lookupCount]
    split_ifs <;> rfl
  refine ⟨?_, ?_, ?_, ?_⟩
  · rcases hreg with h | h <;> subst h <;> rfl
  · refine ⟨⟨[], totalRowOf ⟨[], [], [], 0, 0⟩, [], [], ipPanelOf [], rcPanelOf []⟩,
      ?_, rfl, rfl, rfl⟩
    rcases hreg with h | h <;> subst h <;> rfl
  · intro p hp
    rcases hp with h | h <;> simp [load_tasks, h]
  · intro g l p hpath hp
    have hload : load_tasks taskRead home p = .obj [("tasks", .arr [])] := by
      rcases hp with h | h <;> simp [load_tasks, h]
    refine ⟨⟨g.stats ++ [⟨.obj l, initCounts, 0, 0, .str ""⟩], g.inProg, g.compl,
      g.totalTasks, g.totalDone⟩, ?_, rfl, rfl, hz⟩
    simp only [processProject, dictIndex, hpath, asString, except_bind_ok, hload]
    rfl

/-- Witness for C1 with an absent registry file and an absent task file. -/
theorem c1_missing_or_unparsable_sources_witness :
    load_registry wHome .missing = defaultRegistry wHome :=
  (c1_missing_or_unparsable_sources wHome (fun _ => .missing) .missing (Or.inl rfl)).1

/-- A registry with one project `P` at relative path `proj`, under a given
`projects_root` value. -/
def c6reg (root : String) : JValue :=
  .obj [("version", .num 1), ("projects_root", .str root),
        ("projects", .arr [.obj [("name", .str "P"), ("path", .str "proj")]])]

/-- A task file holding one completed task. -/
def c6taskFile : JValue :=
  .obj [("tasks", .arr [.obj [("id", .str "t"), ("status", .str "completed")]])]

/-- A filesystem where the spec-resolved location under `/rootA` holds
`c6taskFile` and every other path is absent. -/
def c6read : String → ReadResult := fun p =>
  if p = tasksFilePathSpec "/rootA" "proj" then .parsed c6taskFile else .missing

/-- C6 counterexample: two registries that differ only in `projects_root`
(`/rootA` vs `/rootB`), over a filesystem whose only task file sits at the
location the spec's resolution rule derives from `/rootA` (and holds one
completed task).  The pipeline reads zero tasks either way and produces
identical results, so the registry root does not influence which task file
is read — refuting the claim that `load_tasks` resolves the task source
against the registry's `projects_root` field. -/
theorem c6_counterexample :
    gather "/home/u" c6read (c6reg "/rootA") = gather "/home/u" c6read (c6reg "/rootB")
    ∧ (∃ g, gather "/home/u" c6read (c6reg "/rootA") = .ok g
        ∧ g.totalTasks = 0 ∧ g.compl = [])
    ∧ c6read (tasksFilePathSpec "/rootA" "proj") = .parsed c6taskFile
    ∧ tasksFilePath "/home/u" "proj" ≠ tasksFilePathSpec "/rootA" "proj" := by
  refine ⟨rfl, ⟨_, rfl, rfl, rfl⟩, rfl, ?_⟩
  decide

/-- C6 amended: `load_tasks` resolves the task path from the module constant
`PROJECTS_ROOT` (`home/projects`) combined with the fixed sub-path
convention; the registry's `projects_root` field is never read, so changing
the registry's root does not change which task file is read — two
registries with the same `projects` value give identical gathering
results. -/
theorem c6_amended_fixed_root (home : String) (taskRead : String → ReadResult)
    (p : String) (reg1 reg2 : JValue)
    (hsame : dictGet reg1 "projects" (.arr []) = dictGet reg2 "projects" (.arr [])) :
    tasksFilePath home p
      = projectsRoot home ++ "/" ++ p ++ "/.claude/tasks/tasks.json"
    ∧ gather home taskRead reg1 = gather home taskRead reg2 := by
  refine ⟨rfl, ?_⟩
  simp only [gather, hsame]

/-- Witness for the amended C6 on the two concrete registries. -/
theorem c6_amended_fixed_root_witness :
    gather "/home/u" c6read (c6reg "/rootA")
      = gather "/home/u" c6read (c6reg "/rootB") :=
  (c6_amended_fixed_root "/home/u" c6read "proj" (c6reg "/rootA")
    (c6reg "/rootB") rfl).2

/-! ## Well-shapedness machinery -/
/-- A well-shaped project record has a string `name`. -/
lemma wfProject_name (proj : JValue) (hproj : wfProject proj = true) :
    ∃ nm, dictIndex proj "name" = .ok (.str nm) := by
  cases proj with
  | obj pl =>
      simp only [wfProject, Bool.and_eq_true] at hproj
      obtain ⟨⟨hnm, _⟩, _⟩ := hproj
      simp only [isStrField] at hnm
      cases hl : lookupField pl "name" with
      | none => rw [hl] at hnm; simp at hnm
      | some v =>
          cases v with
          | str nm => exact ⟨nm, by simp [dictIndex, hl]⟩
          | null => rw [hl] at hnm; simp at hnm
          | bool b => rw [hl] at hnm; simp at hnm
          | num n => rw [hl] at hnm; simp at hnm
          | arr a => rw [hl] at hnm; simp at hnm
          | obj o => rw [hl] at hnm; simp at hnm
  | null => simp [wfProject] at hproj
  | bool b => simp [wfProject] at hproj
  | num n => simp [wfProject] at hproj
  | str s => simp [wfProject] at hproj
  | arr a => simp [wfProject] at hproj

/-- A well-shaped task is processed without raising. -/
lemma processTask_ok_of_wf (proj : JValue) (hproj : wfProject proj = true)
    (t : JValue) (ht : wfTask t = true) (acc : TaskAcc) :
    ∃ acc', processTask proj acc t = .ok acc' := by
  cases t with
  | obj l =>
      have hs : ∃ sv, (lookupField l "status").getD (.str "pending") = .str sv := by
        simp only [wfTask, Bool.and_eq_true] at ht
        obtain ⟨⟨hst, _⟩, _⟩ := ht
        simp only [optStrField] at hst
        cases hstl : lookupField l "status" with
        | none => exact ⟨"pending", by simp [hstl]⟩
        | some v =>
            cases v with
            | str sv => exact ⟨sv, by simp [hstl]⟩
            | null => rw [hstl] at hst; simp at hst
            | bool b => rw [hstl] at hst; simp at hst
            | num n => rw [hstl] at hst; simp at hst
            | arr a => rw [hstl] at hst; simp at hst
            | obj o => rw [hstl] at hst; simp at hst
      obtain ⟨sv, hsv⟩ := hs
      obtain ⟨nm, hnm⟩ := wfProject_name proj hproj
      refine ⟨⟨bump acc.counts (.str sv),
        if (JValue.str sv) = .str "in_progress"
          then acc.inProg ++ [(.str nm, displayTitle (.obj l))] else acc.inProg,
        if (JValue.str sv) = .str "completed"
          then acc.compl ++ [(.str nm, displayTitle (.obj l))] else acc.compl⟩, ?_⟩
      simp only [processTask, dictGet, hsv, except_bind_ok]
      rw [if_pos (show hashable (.str sv) = true from rfl)]
      by_cases hip : (JValue.str sv) = .str "in_progress" <;>
        by_cases hco : (JValue.str sv) = .str "completed"
      · exfalso
        rw [hip] at hco
        exact absurd hco (by decide)
      · simp only [if_pos hip, if_neg hco, hnm, displayTitleE_obj, except_bind_ok,
          except_pure_eq]
      · simp only [if_neg hip, if_pos hco, hnm, displayTitleE_obj, except_bind_ok,
          except_pure_eq]
      · simp only [if_neg hip, if_neg hco, except_bind_ok, except_pure_eq]
  | null => simp [wfTask] at ht
  | bool b => simp [wfTask] at ht
  | num n => simp [wfTask] at ht
  | str s => simp [wfTask] at ht
  | arr a => simp [wfTask] at ht

/-- A fold whose every step succeeds succeeds. -/
lemma foldE_ok {α β : Type} (f : β → α → Except PyErr β) (l : List α)
    (hf : ∀ a ∈ l, ∀ b, ∃ b', f b a = .ok b') :
    ∀ b, ∃ b', foldE f b l = .ok b' := by
  induction l with
  | nil => intro b; exact ⟨b, rfl⟩
  | cons a rest ih =>
      intro b
      obtain ⟨b1, hb1⟩ := hf a (by simp) b
      obtain ⟨b', hb'⟩ := ih (fun x hx bb => hf x (by simp [hx]) bb) b1
      refine ⟨b', ?_⟩
      simp only [foldE, hb1]
      exact hb'

/-- A map whose every element succeeds succeeds. -/
lemma mapE_ok {α β : Type} (f : α → Except PyErr β) (l : List α)
    (hf : ∀ a ∈ l, ∃ b, f a = .ok b) :
    ∃ bs, mapE f l = .ok bs := by
  induction l with
  | nil => exact ⟨[], rfl⟩
  | cons a rest ih =>
      obtain ⟨b, hb⟩ := hf a (by simp)
      obtain ⟨bs, hbs⟩ := ih (fun x hx => hf x (by simp [hx]))
      refine ⟨b :: bs, ?_⟩
      simp only [mapE, hb, hbs]

/-- Under tolerated reads, every loaded task file is well-shaped. -/
lemma load_tasks_wf (taskRead : String → ReadResult) (home p : String)
    (hread : ∀ q, wfRead wfTaskFile (taskRead q) = true) :
    wfTaskFile (load_tasks taskRead home p) = true := by
  have h := hread (tasksFilePath home p)
  rcases hr : taskRead (tasksFilePath home p) with _ | _ | v
  · simp [load_tasks, hr]
    decide
  · simp [load_tasks, hr]
    decide
  · rw [hr] at h
    simp only [load_tasks, hr]
    exact h

/-- Unpacking a well-shaped task file: its tasks iterate to well-shaped
records and its milestone value is a dict with an absent-or-string name. -/
lemma wfTaskFile_parts (dl : List (String × JValue))
    (h : wfTaskFile (.obj dl) = true) :
    (∃ ts, pyIter ((lookupField dl "tasks").getD (.arr [])) = .ok ts
       ∧ ∀ t ∈ ts, wfTask t = true)
    ∧ (∃ ml, (lookupField dl "milestone").getD (.obj []) = .obj ml
       ∧ optStrField ml "name" = true) := by
  simp only [wfTaskFile, Bool.and_eq_true] at h
  obtain ⟨h1, h2⟩ := h
  constructor
  · cases hl : lookupField dl "tasks" with
    | none => exact ⟨[], by simp [hl, pyIter], by simp⟩
    | some v =>
        rw [hl] at h1
        cases v with
        | arr ts =>
            refine ⟨ts, by simp [hl, pyIter], ?_⟩
            intro t ht
            exact List.all_eq_true.mp h1 t ht
        | null => simp at h1
        | bool b => simp at h1
        | num n => simp at h1
        | str s => simp at h1
        | obj o => simp at h1
  · cases hl : lookupField dl "milestone" with
    | none => exact ⟨[], by simp [hl], by simp [optStrField, lookupField]⟩
    | some v =>
        rw [hl] at h2
        cases v with
        | obj ml => exact ⟨ml, by simp [hl], h2⟩
        | null => simp at h2
        | bool b => simp at h2
        | num n => simp at h2
        | str s => simp at h2
        | arr a => simp at h2

/-- An absent-or-string field, read with a string default, is a string. -/
lemma getD_str_of_optStrField (ml : List (String × JValue)) (k : String)
    (d : String) (h : optStrField ml k = true) :
    ∃ s, (lookupField ml k).getD (.str d) = .str s := by
  simp only [optStrField] at h
  cases hl : lookupField ml k with
  | none => exact ⟨d, by simp [hl]⟩
  | some v =>
      rw [hl] at h
      cases v with
      | str s => exact ⟨s, by simp [hl]⟩
      | null => simp at h
      | bool b => simp at h
      | num n => simp at h
      | arr a => simp at h
      | obj o => simp at h

/-- A well-shaped project record has a string `path`. -/
lemma wfProject_path (proj : JValue) (hproj : wfProject proj = true) :
    ∃ p, dictIndex proj "path" = .ok (.str p) := by
  cases proj with
  | obj pl =>
      simp only [wfProject, Bool.and_eq_true] at hproj
      obtain ⟨⟨_, hpa⟩, _⟩ := hproj
      simp only [isStrField] at hpa
      cases hl : lookupField pl "path" with
      | none => rw [hl] at hpa; simp at hpa
      | some v =>
          cases v with
          | str p => exact ⟨p, by simp [dictIndex, hl]⟩
          | null => rw [hl] at hpa; simp at hpa
          | bool b => rw [hl] at hpa; simp at hpa
          | num n => rw [hl] at hpa; simp at hpa
          | arr a => rw [hl] at hpa; simp at hpa
          | obj o => rw [hl] at hpa; simp at hpa
  | null => simp [wfProject] at hproj
  | bool b => simp [wfProject] at hproj
  | num n => simp [wfProject] at hproj
  | str s => simp [wfProject] at hproj
  | arr a => simp [wfProject] at hproj

/-- A well-shaped project over tolerated reads is processed without
raising. -/
lemma processProject_ok_of_wf (home : String) (taskRead : String → ReadResult)
    (hread : ∀ q, wfRead wfTaskFile (taskRead q) = true)
    (proj : JValue) (hproj : wfProject proj = true) (g : Gathered) :
    ∃ g', processProject home taskRead g proj = .ok g' := by
  obtain ⟨p, hp⟩ := wfProject_path proj hproj
  have hwf := load_tasks_wf taskRead home p hread
  cases hdat : load_tasks taskRead home p with
  | obj dl =>
      rw [hdat] at hwf
      obtain ⟨⟨ts, hts, htswf⟩, ml, hml, hname⟩ := wfTaskFile_parts dl hwf
      obtain ⟨acc, hacc⟩ := foldE_ok (processTask proj) ts
        (fun t ht accb => processTask_ok_of_wf proj hproj t (htswf t ht) accb)
        ⟨initCounts, g.inProg, g.compl⟩
      obtain ⟨ms, hms⟩ := getD_str_of_optStrField ml "name" "" hname
      refine ⟨⟨g.stats ++ [⟨proj, acc.counts, ts.length,
        lookupCount acc.counts (.str "completed"), .str ms⟩],
        acc.inProg, acc.compl, g.totalTasks + ts.length,
        g.totalDone + lookupCount acc.counts (.str "completed")⟩, ?_⟩
      simp only [processProject, hp, asString, except_bind_ok, hdat, dictGet,
        hts, hacc, hml, hms, except_pure_eq]
  | null => rw [hdat] at hwf; simp [wfTaskFile] at hwf
  | bool b => rw [hdat] at hwf; simp [wfTaskFile] at hwf
  | num n => rw [hdat] at hwf; simp [wfTaskFile] at hwf
  | str s => rw [hdat] at hwf; simp [wfTaskFile] at hwf
  | arr a => rw [hdat] at hwf; simp [wfTaskFile] at hwf

/-- Under tolerated reads, every loaded milestone label is a string. -/
lemma milestoneOf_str_of_wf (home : String) (taskRead : String → ReadResult)
    (hread : ∀ q, wfRead wfTaskFile (taskRead q) = true) (proj : JValue) :
    ∃ ms, milestoneOf home taskRead proj = .str ms := by
  cases hpOf : pathOf proj with
  | none => exact ⟨"", by simp only [milestoneOf, hpOf]⟩
  | some p =>
      have hwf := load_tasks_wf taskRead home p hread
      cases hdat : load_tasks taskRead home p with
      | obj dl =>
          rw [hdat] at hwf
          obtain ⟨_, ml, hml, hname⟩ := wfTaskFile_parts dl hwf
          obtain ⟨ms, hms⟩ := getD_str_of_optStrField ml "name" "" hname
          refine ⟨ms, ?_⟩
          simp only [milestoneOf, hpOf]
          rw [hdat]
          simp only [hml, hms]
      | null => rw [hdat] at hwf; simp [wfTaskFile] at hwf
      | bool b => rw [hdat] at hwf; simp [wfTaskFile] at hwf
      | num n => rw [hdat] at hwf; simp [wfTaskFile] at hwf
      | str s => rw [hdat] at hwf; simp [wfTaskFile] at hwf
      | arr a => rw [hdat] at hwf; simp [wfTaskFile] at hwf

/-- The invariant carried by each accumulated `all_stats` entry: a
well-shaped project record and a string milestone label. -/
def wfStat (s : Stat) : Prop :=
  wfProject s.proj = true ∧ ∃ ms, s.milestone = .str ms

/-- The per-project loop over well-shaped projects succeeds and accumulates
only well-shaped stats. -/
lemma foldE_processProject_wf (home : String) (taskRead : String → ReadResult)
    (hread : ∀ q, wfRead wfTaskFile (taskRead q) = true) (projs : List JValue)
    (hprojs : ∀ pr ∈ projs, wfProject pr = true) :
    ∀ g, (∀ s ∈ g.stats, wfStat s) →
      ∃ g', foldE (processProject home taskRead) g projs = .ok g'
        ∧ ∀ s ∈ g'.stats, wfStat s := by
  induction projs with
  | nil => intro g hg; exact ⟨g, rfl, hg⟩
  | cons pr rest ih =>
      intro g hg
      have hwfpr := hprojs pr (by simp)
      obtain ⟨g1, hg1⟩ := processProject_ok_of_wf home taskRead hread pr hwfpr g
      obtain ⟨st, _, hstats, _, _, _, _⟩ :=
        processProject_inv home taskRead g pr g1 hg1
      have hg1wf : ∀ s ∈ g1.stats, wfStat s := by
        intro s hs
        rw [hstats] at hs
        rcases List.mem_append.mp hs with h | h
        · exact hg s h
        · rw [List.mem_singleton.mp h]
          exact ⟨hwfpr, milestoneOf_str_of_wf home taskRead hread pr⟩
      obtain ⟨g', hfold, hwf'⟩ := ih (fun x hx => hprojs x (by simp [hx])) g1 hg1wf
      refine ⟨g', ?_, hwf'⟩
      simp only [foldE, hg1]
      exact hfold

/-- Gathering over a well-shaped registry succeeds with well-shaped
stats. -/
lemma gather_ok_of_wf (home : String) (taskRead : String → ReadResult)
    (hread : ∀ q, wfRead wfTaskFile (taskRead q) = true) (reg : JValue)
    (hreg : wfRegistry reg = true) :
    ∃ g, gather home taskRead reg = .ok g ∧ ∀ s ∈ g.stats, wfStat s := by
  cases reg with
  | obj l =>
      simp only [wfRegistry] at hreg
      cases hl : lookupField l "projects" with
      | none =>
          refine ⟨⟨[], [], [], 0, 0⟩, ?_, by simp⟩
          simp only [gather, dictGet, except_bind_ok, hl]
          rfl
      | some v =>
          rw [hl] at hreg
          cases v with
          | arr ps =>
              obtain ⟨g, hfold, hwf⟩ := foldE_processProject_wf home taskRead
                hread ps (fun pr hpr => List.all_eq_true.mp hreg pr hpr)
                ⟨[], [], [], 0, 0⟩ (by simp)
              refine ⟨g, ?_, hwf⟩
              simp only [gather, dictGet, except_bind_ok, hl, pyIter]
              exact hfold
          | null => simp at hreg
          | bool b => simp at hreg
          | num n => simp at hreg
          | str s => simp at hreg
          | obj o => simp at hreg
  | null => simp [wfRegistry] at hreg
  | bool b => simp [wfRegistry] at hreg
  | num n => simp [wfRegistry] at hreg
  | str s => simp [wfRegistry] at hreg
  | arr a => simp [wfRegistry] at hreg

/-- A well-shaped stat renders to a table row without raising. -/
lemma rowOf_ok_of_wf (s : Stat) (h : wfStat s) : ∃ r, rowOf s = .ok r := by
  obtain ⟨hproj, ms, hms⟩ := h
  obtain ⟨nm, hnm⟩ := wfProject_name s.proj hproj
  have hstv : ∃ sv, (dictGet s.proj "status" (.str ""))
      = .ok (.str sv) := by
    cases hpc : s.proj with
    | obj pl =>
        rw [hpc] at hproj
        simp only [wfProject, Bool.and_eq_true] at hproj
        obtain ⟨_, hos⟩ := hproj
        obtain ⟨sv, hsv⟩ := getD_str_of_optStrField pl "status" "" hos
        exact ⟨sv, by simp [dictGet, hsv]⟩
    | null => rw [hpc] at hproj; simp [wfProject] at hproj
    | bool b => rw [hpc] at hproj; simp [wfProject] at hproj
    | num n => rw [hpc] at hproj; simp [wfProject] at hproj
    | str st => rw [hpc] at hproj; simp [wfProject] at hproj
    | arr a => rw [hpc] at hproj; simp [wfProject] at hproj
  obtain ⟨sv, hsv⟩ := hstv
  refine ⟨⟨nm, projectStatusIcon (.str sv),
    countCell (lookupCount s.counts (.str "pending")),
    countCell (lookupCount s.counts (.str "in_progress")),
    countCell (lookupCount s.counts (.str "completed")),
    countCell (lookupCount s.counts (.str "blocked")),
    countCell (lookupCount s.counts (.str "failed")),
    make_progress_bar s.done s.n 20, ms⟩, ?_⟩
  simp only [rowOf, hsv, except_bind_ok]
  rw [if_pos (show hashable (.str sv) = true from rfl)]
  simp only [hnm, except_bind_ok, renderCell, hms, except_pure_eq]

/-- The full `build_display` succeeds on a well-shaped registry over
tolerated reads. -/
lemma buildDisplay_ok_of_wf (home : String) (taskRead : String → ReadResult)
    (hread : ∀ q, wfRead wfTaskFile (taskRead q) = true) (reg : JValue)
    (hreg : wfRegistry reg = true) :
    ∃ d, buildDisplay home taskRead reg = .ok d := by
  obtain ⟨g, hg, hstats⟩ := gather_ok_of_wf home taskRead hread reg hreg
  obtain ⟨rows, hrows⟩ := mapE_ok rowOf g.stats
    (fun s hs => rowOf_ok_of_wf s (hstats s hs))
  refine ⟨⟨rows, totalRowOf g, g.inProg, lastN 8 g.compl, ipPanelOf g.inProg,
    rcPanelOf (lastN 8 g.compl)⟩, ?_⟩
  simp only [buildDisplay, hg, except_bind_ok, hrows, except_pure_eq]

/-! ## Remaining claims: C7, C8, C10 -/

/-- C7 counterexample: a registry file whose content parses to the JSON
array `[]`.  `json.loads` succeeds, so `load_registry` returns the array
unchanged, and the aggregation raises an uncaught `AttributeError` at
`registry.get("projects", [])` — so the pipeline does not render on every
input in its domain. -/
theorem c7_counterexample :
    buildDisplay "/h" (fun _ => .missing)
      (load_registry "/h" (.parsed (.arr []))) = .error .attributeError := rfl

/-- C7 (amended): over read outcomes that are missing, unparsable, or parse
to data matching the documented external-interface shapes (spec section 6),
the load-aggregate-render pipeline always produces a display without
raising; arbitrarily-shaped parsed data, by contrast, can crash it (see the
counterexample). -/
theorem c7_renders_on_wf_inputs (home : String) (taskRead : String → ReadResult)
    (regRead : ReadResult) (hreg : wfRead wfRegistry regRead = true)
    (hread : ∀ q, wfRead wfTaskFile (taskRead q) = true) :
    ∃ d, buildDisplay home taskRead (load_registry home regRead) = .ok d := by
  have hwreg : wfRegistry (load_registry home regRead) = true := by
    rcases regRead with _ | _ | v
    · rfl
    · rfl
    · exact hreg
  exact buildDisplay_ok_of_wf home taskRead hread _ hwreg

/-- The fixture filesystem serves only well-shaped task files. -/
lemma wRead_wf : ∀ q, wfRead wfTaskFile (wRead q) = true := by
  intro q
  unfold wRead
  by_cases h : q = tasksFilePath wHome "pp"
  · rw [if_pos h]
    decide
  · rw [if_neg h]
    rfl

/-- Witness for the amended C7 on the concrete fixture registry. -/
theorem c7_renders_on_wf_inputs_witness :
    ∃ d, buildDisplay wHome wRead (load_registry wHome (.parsed wReg)) = .ok d :=
  c7_renders_on_wf_inputs wHome wRead (.parsed wReg) (by decide) wRead_wf

/-- C8: when the registry file is absent (or the loaded registry has an
empty project list) at startup, `main` reports the no-projects message and
returns without entering the Running state — zero render cycles happen; the
Idle-to-Running transition occurs exactly when the startup registry's
projects list is non-empty. -/
theorem c8_startup_gate (home : String) :
    (startUp home .missing = .ok .noProjects
      ∧ startUp home .unparsable = .ok .noProjects)
    ∧ (∀ fields : List (String × JValue),
        (lookupField fields "projects" = some (.arr [])
          ∨ lookupField fields "projects" = none) →
        startUp home (.parsed (.obj fields)) = .ok .noProjects)
    ∧ (∀ (fields : List (String × JValue)) (l : List JValue),
        lookupField fields "projects" = some (.arr l) →
        (startUp home (.parsed (.obj fields)) = .ok .started ↔ l ≠ []))
    ∧ (∀ (taskRead : String → ReadResult) (regRead : ReadResult)
        (laterReads : List ReadResult),
        startUp home regRead = .ok .noProjects →
        mainRun home taskRead regRead laterReads = .ok []) := by
  refine ⟨⟨rfl, rfl⟩, ?_, ?_, ?_⟩
  · intro fields hf
    rcases hf with h | h <;>
      simp [startUp, load_registry, dictGet, h, truthy]
  · intro fields l hf
    simp only [startUp, load_registry, dictGet, hf, except_bind_ok,
      except_pure_eq, Option.getD_some]
    cases l with
    | nil => simp [truthy]
    | cons a rest => simp [truthy]
  · intro taskRead regRead laterReads hstart
    simp only [mainRun, hstart, except_bind_ok, except_pure_eq]

/-- Witness for C8: a one-project registry starts Running; a missing
registry yields zero render cycles. -/
theorem c8_startup_gate_witness :
    startUp wHome (.parsed (.obj [("projects", .arr [wProj])])) = .ok .started
    ∧ mainRun wHome wRead .missing [] = .ok [] :=
  ⟨((c8_startup_gate wHome).2.2.1 [("projects", .arr [wProj])] [wProj]
      rfl).mpr (by decide),
   (c8_startup_gate wHome).2.2.2 wRead .missing [] rfl⟩

/-- The zero-project display rendered whenever a cycle loads the default
(empty) registry. -/
def emptyDisplayV : Display :=
  ⟨[], totalRowOf ⟨[], [], [], 0, 0⟩, [], [], ipPanelOf [], rcPanelOf []⟩

/-- A cycle over the default registry renders the zero-project display,
whatever the task filesystem looks like. -/
lemma buildDisplay_default (home : String) (taskRead : String → ReadResult) :
    buildDisplay home taskRead (defaultRegistry home) = .ok emptyDisplayV := rfl

/-- A map all of whose elements succeed with the same value. -/
lemma mapE_const_ok {α β : Type} (f : α → Except PyErr β) (l : List α) (b : β)
    (hf : ∀ a ∈ l, f a = .ok b) :
    mapE f l = .ok (l.map (fun _ => b)) := by
  induction l with
  | nil => rfl
  | cons a rest ih =>
      simp only [mapE, hf a (by simp), ih (fun x hx => hf x (by simp [hx])),
        List.map_cons]

/-- C10: once the loop has entered the Running state it never returns to
Idle: the non-empty-project check runs only at startup, so when the
registry becomes missing or unparsable on later cycles the dashboard keeps
running and renders the zero-project display (empty table, placeholder
panels) for each such cycle instead of exiting or printing the no-projects
message again; one display is produced per tick, and the loop ends only by
external interrupt (modelled by the finite list of observed ticks). -/
theorem c10_running_never_returns_to_idle (home : String)
    (taskRead : String → ReadResult) (regRead0 : ReadResult)
    (laterReads : List ReadResult)
    (hstart : startUp home regRead0 = .ok .started)
    (hreg : wfRead wfRegistry regRead0 = true)
    (hread : ∀ q, wfRead wfTaskFile (taskRead q) = true)
    (hlater : ∀ r ∈ laterReads, r = .missing ∨ r = .unparsable) :
    ∃ d0, mainRun home taskRead regRead0 laterReads
        = .ok (d0 :: laterReads.map (fun _ => emptyDisplayV))
      ∧ emptyDisplayV.rows = []
      ∧ emptyDisplayV.ipPanel = "  [dim]No tasks in progress[/]"
      ∧ emptyDisplayV.rcPanel = "  [dim]No completed tasks yet[/]"
      ∧ (d0 :: laterReads.map (fun _ => emptyDisplayV)).length
          = 1 + laterReads.length := by
  have hwreg : wfRegistry (load_registry home regRead0) = true := by
    rcases regRead0 with _ | _ | v
    · rfl
    · rfl
    · exact hreg
  obtain ⟨d0, hd0⟩ := buildDisplay_ok_of_wf home taskRead hread _ hwreg
  have hrest : mapE (fun r => buildDisplay home taskRead (load_registry home r))
      laterReads = .ok (laterReads.map (fun _ => emptyDisplayV)) := by
    apply mapE_const_ok
    intro r hr
    rcases hlater r hr with h | h <;> rw [h] <;>
      exact buildDisplay_default home taskRead
  refine ⟨d0, ?_, rfl, rfl, rfl, by simp [Nat.add_comm]⟩
  simp only [mainRun, hstart, except_bind_ok, hd0, hrest, except_pure_eq]

/-- Witness for C10: a started dashboard whose registry disappears for the
next two ticks still renders both ticks. -/
theorem c10_running_never_returns_to_idle_witness :
    (mainRun wHome wRead (.parsed wReg) [.missing, .unparsable]).isOk = true := by
  obtain ⟨d0, hmain, _⟩ := c10_running_never_returns_to_idle wHome wRead
    (.parsed wReg) [.missing, .unparsable] rfl (by decide) wRead_wf
    (by intro r hr; simpa using hr)
  rw [hmain]
  rfl

end Dashboard
